import Mathlib

/-!
Shallow embedding of the declarative form-validation engine
(`Validator` class): rule registry with built-in predicates, the
rule-string parser, the per-field evaluator, the error store, error
surfacing, submit handling and reset.  DOM concerns (element lookup,
event subscription, class toggling) are modelled as explicit state:
an association list of per-field error elements carrying a visibility
flag and a text, and a Boolean for the submit button's disabled state.
String values are processed through their character lists so that all
definitions evaluate inside the kernel.
-/

/-- Whitespace for the purposes of `trim`, modelling the JS `String.trim`
whitespace class restricted to the ASCII characters exercised here. -/
def isJsWhitespace (c : Char) : Bool :=
  c = ' ' || c = '\t' || c = '\n' || c = '\r' || c = '\x0b' || c = '\x0c'

/-- Trim leading and trailing whitespace from a character list. -/
def trimChars (cs : List Char) : List Char :=
  ((cs.dropWhile isJsWhitespace).reverse.dropWhile isJsWhitespace).reverse

/-- Model of JS `value.trim()`. -/
def jsTrim (s : String) : String :=
  ⟨trimChars s.data⟩

/-- Model of JS `value.trim().length`. -/
def trimmedLength (s : String) : Nat :=
  (trimChars s.data).length

/-- Split a character list on a separator character; like JS
`String.prototype.split` with a one-character separator, the result is
never empty and empty segments are kept. -/
def splitChar (sep : Char) : List Char → List (List Char)
  | [] => [[]]
  | c :: cs =>
    let r := splitChar sep cs
    if c = sep then [] :: r
    else
      match r with
      | h :: t => (c :: h) :: t
      | [] => [[c]]

/-- Model of JS `s.split(sep)` for a one-character separator. -/
def jsSplit (sep : Char) (s : String) : List String :=
  (splitChar sep s.data).map fun cs => ⟨cs⟩

/-- Parse a non-empty all-digit character list as a natural number. -/
def digitsToNat? (ds : List Char) : Option Nat :=
  if ds ≠ [] ∧ ds.all (·.isDigit) then
    some (ds.foldl (fun a c => a * 10 + (c.toNat - 48)) 0)
  else
    none

/-- Model of JS `Number(s)` on the decimal-integer strings used by the
engine: trims, accepts an optional sign followed by digits, maps the
empty (trimmed) string to `0`, and returns `none` for `NaN`. -/
def jsNumber (s : String) : Option Int :=
  match trimChars s.data with
  | [] => some 0
  | '-' :: ds => (digitsToNat? ds).map fun n => -(n : Int)
  | '+' :: ds => (digitsToNat? ds).map fun n => (n : Int)
  | ds => (digitsToNat? ds).map fun n => (n : Int)

/-- Model of JS `Number(x)` where `x` may be `undefined` (an out-of-range
positional parameter): `Number(undefined)` is `NaN`. -/
def jsNumberOpt : Option String → Option Int
  | some s => jsNumber s
  | none => none

/-- Characters allowed in the local part of the e-mail pattern. -/
def isLocalChar (c : Char) : Bool :=
  c.isAlphanum || c = '.' || c = '_' || c = '-'

/-- Characters allowed in the domain part of the e-mail pattern. -/
def isDomainChar (c : Char) : Bool :=
  c.isAlphanum || c = '.' || c = '-'

/-- Matcher for the tail of the e-mail pattern after the `@`:
`[a-zA-Z0-9.-]+\.[a-zA-Z]\x7b2,4\x7d`.  A successful match must place the
mandatory dot at the last dot of the string (the TLD is alphabetic),
so matching the last-dot decomposition is exact. -/
def domainMatch (r : List Char) : Bool :=
  match (splitChar '.' r).reverse with
  | t :: rest =>
    match rest with
    | [] => false
    | _ :: _ =>
      let m := List.intercalate ['.'] rest.reverse
      decide (m ≠ []) && m.all isDomainChar && t.all Char.isAlpha &&
        decide (2 ≤ t.length) && decide (t.length ≤ 4)
  | [] => false

/-- Model of the `email` regular expression
`^[a-zA-Z0-9._-]+@[a-zA-Z0-9.-]+\.[a-zA-Z]\x7b2,4\x7d$` applied to the
trimmed value: exactly one `@`, a non-empty local part, then the domain
matcher. -/
def emailMatch (s : String) : Bool :=
  match splitChar '@' (trimChars s.data) with
  | [l, r] => decide (l ≠ []) && l.all isLocalChar && domainMatch r
  | _ => false

/-- The last-observed raw values of the fields (`_valueFields`). -/
abbrev Snapshot := List (String × String)

/-- A registered rule: message template, declared parameter count
(`validator.length - 1` in the source) and predicate.  The predicate
receives the value-snapshot (`this` in the source), the candidate value
and the positional parameters. -/
structure RuleDef where
  message : String
  arity : Nat
  predicate : Snapshot → String → List String → Bool

/-- The rule registry (`Validator.validators`). -/
abbrev Registry := List (String × RuleDef)

/-- Built-in `required` rule: non-empty after trim. -/
def requiredRule : RuleDef where
  message := "Поле обязательно для заполнения"
  arity := 0
  predicate := fun _ v _ => decide (0 < trimmedLength v)

/-- Built-in `minLen` rule: trimmed length at least the numeric parameter. -/
def minLenRule : RuleDef where
  message := "Минимум $1 символов"
  arity := 1
  predicate := fun _ v ps =>
    match jsNumberOpt ps[0]? with
    | some n => decide ((trimmedLength v : Int) ≥ n)
    | none => false

/-- Built-in `maxLen` rule: trimmed length at most the numeric parameter. -/
def maxLenRule : RuleDef where
  message := "Максимум $1 символов"
  arity := 1
  predicate := fun _ v ps =>
    match jsNumberOpt ps[0]? with
    | some n => decide ((trimmedLength v : Int) ≤ n)
    | none => false

/-- Built-in `number` rule: the value parses as a number. -/
def numberRule : RuleDef where
  message := "Значение должно быть числом"
  arity := 0
  predicate := fun _ v _ => (jsNumber v).isSome

/-- Built-in `min` rule: numeric comparison, false on `NaN`. -/
def minRule : RuleDef where
  message := "Минимум $1"
  arity := 1
  predicate := fun _ v ps =>
    match jsNumber v, jsNumberOpt ps[0]? with
    | some a, some b => decide (a ≥ b)
    | _, _ => false

/-- Built-in `max` rule: numeric comparison, false on `NaN`. -/
def maxRule : RuleDef where
  message := "Максимум $1"
  arity := 1
  predicate := fun _ v ps =>
    match jsNumber v, jsNumberOpt ps[0]? with
    | some a, some b => decide (a ≤ b)
    | _, _ => false

/-- Built-in `range` rule: trimmed length within the two numeric bounds
(`len >= Number(min) && len <= Number(max)`, false as soon as a bound is
`NaN` per JS comparison semantics). -/
def rangeRule : RuleDef where
  message := "Длинна строки должна быть от $1 до $2"
  arity := 2
  predicate := fun _ v ps =>
    match jsNumberOpt ps[0]? with
    | some a =>
      match jsNumberOpt ps[1]? with
      | some b => decide ((trimmedLength v : Int) ≥ a) && decide ((trimmedLength v : Int) ≤ b)
      | none => false
    | none => false

/-- Built-in `email` rule. -/
def emailRule : RuleDef where
  message := "Не корректный E-mail адрес"
  arity := 0
  predicate := fun _ v _ => emailMatch v

/-- Built-in `confirm` rule: `value === this[field]`, a strict comparison
against the snapshot entry of the named field; `false` when that entry
is absent (`undefined`). -/
def confirmRule : RuleDef where
  message := "Пароли дожны совпадать"
  arity := 1
  predicate := fun ctx v ps =>
    match ps[0]? with
    | some f =>
      match ctx.lookup f with
      | some w => v == w
      | none => false
    | none => false

/-- The seeded registry, in source declaration order. -/
def builtinValidators : Registry :=
  [("required", requiredRule), ("minLen", minLenRule), ("maxLen", maxLenRule),
   ("number", numberRule), ("min", minRule), ("max", maxRule),
   ("range", rangeRule), ("email", emailRule), ("confirm", confirmRule)]

/-- A parsed rule reference (`{name, parameters}`). -/
structure RuleRef where
  name : String
  parameters : List String
  deriving DecidableEq, Repr

/-- The two failure modes of the rule-string parser, one per `throw`
site in `_validatorsParser`. -/
inductive ParseError where
  | unknownRule (name : String)
  | arityMismatch (name : String) (expected got : Nat)
  deriving DecidableEq, Repr

/-- Whether a parse error is the unknown-rule kind. -/
def ParseError.isUnknownRule : ParseError → Bool
  | .unknownRule _ => true
  | _ => false

/-- `_validatorArgumentsParser`: a present parameter section is split on
commas (so `name:` yields one empty parameter), an absent one yields no
parameters. -/
def validatorArgumentsParser : Option String → List String
  | some args => jsSplit ',' args
  | none => []

/-- `getNumberOfValidatorArguments`: the declared parameter count of a
registered rule (`validator.length - 1`). -/
def getNumberOfValidatorArguments (registry : Registry) (name : String) : Option Nat :=
  (registry.lookup name).map (·.arity)

/-- The rule name of a segment: the part before the first `:` (the
whole segment when there is none; the empty string only for an empty
segment). -/
def segName (elem : String) : String :=
  (jsSplit ':' elem).headD ""

/-- Parse one pipe-delimited segment: `elem.split(":")` destructured
into the name (first part) and the raw parameter section (second part,
if any; later parts are dropped by the destructuring), then registry
lookup and arity check. -/
def parseSegment (registry : Registry) (elem : String) : Except ParseError RuleRef :=
  let parts := jsSplit ':' elem
  let name := segName elem
  let rawParams := parts[1]?
  let parameters := validatorArgumentsParser rawParams
  match getNumberOfValidatorArguments registry name with
  | none => .error (.unknownRule name)
  | some argLen =>
    if argLen ≠ parameters.length then
      .error (.arityMismatch name argLen parameters.length)
    else
      .ok ⟨name, parameters⟩

/-- Parse a list of segments left to right, stopping at the first
failure (the `map` with `throw` in the source). -/
def parseSegments (registry : Registry) : List String → Except ParseError (List RuleRef)
  | [] => .ok []
  | seg :: rest =>
    match parseSegment registry seg with
    | .error e => .error e
    | .ok r =>
      match parseSegments registry rest with
      | .error e => .error e
      | .ok rs => .ok (r :: rs)

/-- `_validatorsParser`: trim the rule string, split it on `|` and parse
every segment. -/
def validatorsParser (registry : Registry) (validators : String) :
    Except ParseError (List RuleRef) :=
  parseSegments registry (jsSplit '|' (jsTrim validators))

/-- Modelled from the spec: §4.2 describes the parameter section of a
segment as everything after the *first* `:`, split on commas.  This is
the spec's reading of what parameters a segment supplies, used to
compare against `parseSegment`, which keeps only the part between the
first and second `:`. -/
def specSegmentParameters (elem : String) : List String :=
  match jsSplit ':' elem with
  | [] => []
  | [_] => []
  | _ :: rest => jsSplit ',' (String.intercalate ":" rest)

/-- A compiled field descriptor (`ParsedFieldType`). -/
structure ParsedFieldType where
  name : String
  syncCall : Option String
  validators : List RuleRef
  deriving DecidableEq, Repr

/-- The error store (`_errors`): field name to rule name to message. -/
abbrev ErrorStore := List (String × List (String × String))

/-- The rendered error element of a field: presence of the
`input-error--visible` class and the text content. -/
structure ErrorElement where
  visible : Bool
  text : String
  deriving DecidableEq, Repr

/-- The mutable instance state touched by the evaluator. -/
structure ValState where
  errors : ErrorStore
  valueFields : Snapshot
  elements : List (String × ErrorElement)
  submitDisabled : Bool
  deriving DecidableEq, Repr

/-- JS object property write on an association list: update in place if
the key exists, append otherwise (insertion order is preserved). -/
def setKey (k : String) (v : β) (l : List (String × β)) : List (String × β) :=
  if l.any (fun p => decide (p.1 = k)) then
    l.map fun p => if p.1 = k then (k, v) else p
  else
    l ++ [(k, v)]

/-- JS `delete obj[k]` on an association list. -/
def delKey (k : String) (l : List (String × β)) : List (String × β) :=
  l.filter fun p => decide (p.1 ≠ k)

/-- The keys of an association list. -/
def keys (l : List (String × β)) : List String :=
  l.map (·.1)

/-- The stored message of a field/rule pair, if any. -/
def ruleErr (errs : ErrorStore) (field rule : String) : Option String :=
  (errs.lookup field).bind (·.lookup rule)

/-- `this._errors[field][rule] = msg`, creating the inner object when the
field key is absent. -/
def setRuleError (field rule msg : String) (errs : ErrorStore) : ErrorStore :=
  match errs.lookup field with
  | some fe => setKey field (setKey rule msg fe) errs
  | none => setKey field (setKey rule msg []) errs

/-- `delete this._errors[field][rule]` inside `try ... catch`: a no-op
when the field key is absent. -/
def delRuleError (field rule : String) (errs : ErrorStore) : ErrorStore :=
  match errs.lookup field with
  | some fe => setKey field (delKey rule fe) errs
  | none => errs

/-- `_removeEmptyErrorFields`: drop every field whose inner mapping is
empty. -/
def removeEmptyErrorFields (errs : ErrorStore) : ErrorStore :=
  errs.filter fun p => !p.2.isEmpty

/-- Replace the first occurrence of `pat` in a character list, like JS
`String.prototype.replace` with a string pattern. -/
def replaceFirstChars (pat repl : List Char) : List Char → List Char
  | [] => []
  | c :: cs =>
    if pat.isPrefixOf (c :: cs) then repl ++ List.drop pat.length (c :: cs)
    else c :: replaceFirstChars pat repl cs

/-- Model of JS `s.replace(pat, repl)` with a string pattern (first
occurrence only). -/
def jsReplaceFirst (s pat repl : String) : String :=
  ⟨replaceFirstChars pat.data repl.data s.data⟩

/-- The `forEach` of `_getErrorMessage`: substitute `$1`, `$2`, … with
the positional parameters, one replacement each. -/
def substParams (message : String) (params : List String) (i : Nat) : String :=
  match params with
  | [] => message
  | p :: rest => substParams (jsReplaceFirst message ("$" ++ toString (i + 1)) p) rest (i + 1)

/-- `_getErrorMessage`. -/
def getErrorMessage (message : String) (params : List String) : String :=
  substParams message params 0

/-- The rule loop of `_eventHandler`: each rule either clears or sets its
error-store entry; a rule counts as passing when its predicate holds or
the value is empty and the field is not required.  All predicates read
the pre-evaluation snapshot `ctx`.  (A compiled field never reaches the
`none` registry branch: the parser checked every name.) -/
def runRules (registry : Registry) (ctx : Snapshot) (value : String) (fieldName : String)
    (isEmpty isRequired : Bool) : List RuleRef → ErrorStore → ErrorStore
  | [], errs => errs
  | val :: rest, errs =>
    match registry.lookup val.name with
    | some rd =>
      let isValid := rd.predicate ctx value val.parameters
      let errorMessage := getErrorMessage rd.message val.parameters
      let errs' :=
        if isValid || (isEmpty && !isRequired) then delRuleError fieldName val.name errs
        else setRuleError fieldName val.name errorMessage errs
      runRules registry ctx value fieldName isEmpty isRequired rest errs'
    | none => runRules registry ctx value fieldName isEmpty isRequired rest errs

/-- The inner loop of `_toggleErrorMessages` for one field: walk the
declared rule order; at the first rule whose stored message is truthy
(present and non-empty) show it and stop, otherwise hide and continue. -/
def toggleLoop (ferrs : Option (List (String × String))) :
    List String → ErrorElement → ErrorElement
  | [], el => el
  | rn :: rest, el =>
    match ferrs.bind (·.lookup rn) with
    | some m =>
      if m == "" then toggleLoop ferrs rest { el with visible := false }
      else { visible := true, text := m }
    | none => toggleLoop ferrs rest { el with visible := false }

/-- Update the element recorded under a field name, if present
(`_errorMessageElements[name]`, created for every field at
construction). -/
def updateElement (n : String) (g : ErrorElement → ErrorElement)
    (els : List (String × ErrorElement)) : List (String × ErrorElement) :=
  els.map fun p => if p.1 = n then (p.1, g p.2) else p

/-- `_toggleErrorMessages`: recompute each field's element from the
error store and the field's declared rule order. -/
def toggleErrorMessages (errs : ErrorStore) :
    List ParsedFieldType → List (String × ErrorElement) → List (String × ErrorElement)
  | [], els => els
  | f :: rest, els =>
    toggleErrorMessages errs rest
      (updateElement f.name (toggleLoop (errs.lookup f.name) (f.validators.map (·.name))) els)

/-- `_eventHandler`: run every rule against the pre-evaluation snapshot,
record the raw value into the snapshot afterwards, prune empty error
fields and recompute the visible messages. -/
def eventHandler (registry : Registry) (fields : List ParsedFieldType) (value : String)
    (field : ParsedFieldType) (s : ValState) : ValState :=
  let isEmpty := decide (trimmedLength value = 0)
  let isRequired := field.validators.any (fun v => v.name == "required")
  let errs1 := runRules registry s.valueFields value field.name isEmpty isRequired
    field.validators s.errors
  let vfs := setKey field.name value s.valueFields
  let errs2 := removeEmptyErrorFields errs1
  let els := toggleErrorMessages errs2 fields s.elements
  { errors := errs2, valueFields := vfs, elements := els,
    submitDisabled := s.submitDisabled }

/-- Whether the error callback fires for this field after an evaluation
(`!!this._errors[field.name]`). -/
def errorCallbackFires (s : ValState) (fieldName : String) : Bool :=
  (s.errors.lookup fieldName).isSome

/-- `_syncCall`: re-evaluate the dependent field at its last-known
snapshot entry, substituting the sentinel string when it has none. -/
def syncCall (registry : Registry) (fields : List ParsedFieldType) (vname : String)
    (s : ValState) : ValState :=
  let value := (s.valueFields.lookup vname).getD "d1111"
  match fields.find? (fun f => f.name == vname) with
  | some field => eventHandler registry fields value field s
  | none => s

/-- The body of the input/blur listener installed by `_setEvents`:
evaluate the field, then synchronously re-evaluate its sync target, if
declared. -/
def inputEvent (registry : Registry) (fields : List ParsedFieldType) (value : String)
    (field : ParsedFieldType) (s : ValState) : ValState :=
  let s1 := eventHandler registry fields value field s
  match field.syncCall with
  | some target => syncCall registry fields target s1
  | none => s1

/-- `isError`: whether the error store has any key. -/
def isError (s : ValState) : Bool :=
  !s.errors.isEmpty

/-- Outcome of the submit listener: the settled state, whether the
default submit action was prevented, and the snapshot handed to the
submit callback when it fires. -/
structure SubmitResult where
  state : ValState
  prevented : Bool
  submitPayload : Option Snapshot
  deriving DecidableEq, Repr

/-- `_handleSubmit`: evaluate every declared field at its live value in
declaration order, prevent the default action when the store is
non-empty, and otherwise pass the snapshot to the submit callback. -/
def handleSubmit (registry : Registry) (fields : List ParsedFieldType)
    (liveValues : String → String) (s : ValState) : SubmitResult :=
  let s' := fields.foldl (fun st f => eventHandler registry fields (liveValues f.name) f st) s
  { state := s'
    prevented := isError s'
    submitPayload := if isError s' = false then some s'.valueFields else none }

/-- The per-field loop of `resetAllErrors`: remove the visible class
from every field's element (text is untouched). -/
def clearVisibleMarks : List ParsedFieldType → List (String × ErrorElement) →
    List (String × ErrorElement)
  | [], els => els
  | f :: rest, els =>
    clearVisibleMarks rest (updateElement f.name (fun el => { el with visible := false }) els)

/-- `resetAllErrors`: hide every message, empty the error store and
re-enable the submit button. -/
def resetAllErrors (fields : List ParsedFieldType) (s : ValState) : ValState :=
  { errors := []
    valueFields := s.valueFields
    elements := clearVisibleMarks fields s.elements
    submitDisabled := false }

/-- The state right after construction: empty store and snapshot, one
hidden error element per declared field (`_createErrorFields`). -/
def initState (fields : List ParsedFieldType) : ValState :=
  { errors := []
    valueFields := []
    elements := fields.map fun f => (f.name, ⟨false, ""⟩)
    submitDisabled := false }

/-- The first rule, in a field's declared validator order, that has an
entry in the error store, with its message. -/
def firstStoreError (errs : ErrorStore) (f : ParsedFieldType) : Option (String × String) :=
  (f.validators.map (·.name)).findSome? fun rn => (ruleErr errs f.name rn).map fun m => (rn, m)

deriving instance DecidableEq for Except

/-! ## Concrete scenarios from the specification -/

/-- Field `name: required|minLen:4|maxLen:5`. -/
def nameField : ParsedFieldType :=
  ⟨"name", none, [⟨"required", []⟩, ⟨"minLen", ["4"]⟩, ⟨"maxLen", ["5"]⟩]⟩

/-- Field `age: required|number|min:10|max:32`. -/
def ageField : ParsedFieldType :=
  ⟨"age", none, [⟨"required", []⟩, ⟨"number", []⟩, ⟨"min", ["10"]⟩, ⟨"max", ["32"]⟩]⟩

/-- Live form values for the failing submission (`name="ab"`, `age="5"`). -/
def liveInvalid : String → String :=
  fun n => if n = "name" then "ab" else if n = "age" then "5" else ""

/-- Live form values for the passing submission (`name="abcd"`, `age="15"`). -/
def liveValid : String → String :=
  fun n => if n = "name" then "abcd" else if n = "age" then "15" else ""

/-- The failing submission of the spec's submission scenario. -/
def submitInvalid : SubmitResult :=
  handleSubmit builtinValidators [nameField, ageField] liveInvalid
    (initState [nameField, ageField])

/-- The passing submission of the spec's submission scenario. -/
def submitValid : SubmitResult :=
  handleSubmit builtinValidators [nameField, ageField] liveValid
    (initState [nameField, ageField])

/-- Field `password: required|minLen:5` with `syncCall: confirm`. -/
def passwordField : ParsedFieldType :=
  ⟨"password", some "confirm", [⟨"required", []⟩, ⟨"minLen", ["5"]⟩]⟩

/-- Field `confirm: required|confirm:password`. -/
def confirmField : ParsedFieldType :=
  ⟨"confirm", none, [⟨"required", []⟩, ⟨"confirm", ["password"]⟩]⟩

/-- The two fields of the cross-field sync scenario. -/
def syncFields : List ParsedFieldType := [passwordField, confirmField]

/-- Sync scenario, step 1: `password` set to `"abcde"`. -/
def pwStep1 : ValState :=
  inputEvent builtinValidators syncFields "abcde" passwordField (initState syncFields)

/-- Sync scenario, step 2: `confirm` set to `"abcde"`. -/
def pwStep2 : ValState :=
  inputEvent builtinValidators syncFields "abcde" confirmField pwStep1

/-- Sync scenario, step 3: `password` changed to `"abcdef"` without
touching `confirm`. -/
def pwStep3 : ValState :=
  inputEvent builtinValidators syncFields "abcdef" passwordField pwStep2

/-- An optional e-mail field: `email` only, no `required`. -/
def emailOnlyField : ParsedFieldType := ⟨"ef", none, [⟨"email", []⟩]⟩

/-- A required e-mail field: `required|email`. -/
def reqEmailField : ParsedFieldType := ⟨"rf", none, [⟨"required", []⟩, ⟨"email", []⟩]⟩

/-- Field `rm` with validators `required|minLen:4`, in that order. -/
def fieldRM : ParsedFieldType := ⟨"rm", none, [⟨"required", []⟩, ⟨"minLen", ["4"]⟩]⟩

/-- Field `mr` with the same validators in the opposite order. -/
def fieldMR : ParsedFieldType := ⟨"mr", none, [⟨"minLen", ["4"]⟩, ⟨"required", []⟩]⟩

/-- Both order-demonstration fields evaluated at the empty value, which
fails `required` and `minLen:4` alike, so both entries sit in the store
for each field. -/
def orderDemoState : ValState :=
  eventHandler builtinValidators [fieldRM, fieldMR] "" fieldMR
    (eventHandler builtinValidators [fieldRM, fieldMR] "" fieldRM
      (initState [fieldRM, fieldMR]))

/-- Field `a: required`, the dependency of the staleness scenario. -/
def staleFieldA : ParsedFieldType := ⟨"a", none, [⟨"required", []⟩]⟩

/-- Field `b: required|confirm:a`, with no `syncCall` declared on `a`. -/
def staleFieldB : ParsedFieldType := ⟨"b", none, [⟨"required", []⟩, ⟨"confirm", ["a"]⟩]⟩

/-- Staleness scenario, step 1: `b` set to `"x"` while `a` has no
snapshot entry, so `confirm:a` fails and is recorded. -/
def staleStep1 : ValState :=
  inputEvent builtinValidators [staleFieldA, staleFieldB] "x" staleFieldB
    (initState [staleFieldA, staleFieldB])

/-- Staleness scenario, step 2: `a` set to `"x"`; `b` is not
re-evaluated, so its stored `confirm` error is now stale. -/
def staleStep2 : ValState :=
  inputEvent builtinValidators [staleFieldA, staleFieldB] "x" staleFieldA staleStep1

/-- A field whose only rule is a `confirm` against itself. -/
def selfConfirmField (n : String) : ParsedFieldType := ⟨n, none, [⟨"confirm", [n]⟩]⟩

/-- A state whose snapshot already records `"old"` for field `pw`. -/
def selfConfirmState : ValState :=
  ⟨[], [("pw", "old")], [("pw", ⟨false, ""⟩)], false⟩

/-- Whether every message stored for a field is non-empty (truthy for
the surfacing loop). -/
def storedMessagesNonempty (errs : ErrorStore) (n : String) : Bool :=
  ((errs.lookup n).getD []).all fun p => p.2 != ""

/-! ## Association-list lemmas -/

theorem lookup_eq_none_of_any_eq_false {β : Type} {k : String} {l : List (String × β)}
    (h : l.any (fun p => decide (p.1 = k)) = false) : l.lookup k = none := by
  rw [List.lookup_eq_none_iff]
  intro p hp
  simp only [List.any_eq_false, decide_eq_true_eq] at h
  simp only [bne_iff_ne, ne_eq]
  exact fun e => h p hp e.symm

theorem lookup_append_of_none {β : Type} {k : String} {l l' : List (String × β)}
    (h : l.lookup k = none) : (l ++ l').lookup k = l'.lookup k := by
  simp [List.lookup_append, h]

theorem lookup_mapSet_self {β : Type} (k : String) (v : β) (l : List (String × β)) :
    (l.map fun p => if p.1 = k then (k, v) else p).lookup k =
      (l.lookup k).map fun _ => v := by
  induction l with
  | nil => rfl
  | cons p t ih =>
    obtain ⟨a, b⟩ := p
    by_cases hk : a = k
    · subst hk
      simp [List.lookup_cons]
    · simp [List.lookup_cons, hk,
        show (k == a) = false from beq_eq_false_iff_ne.mpr (Ne.symm hk), ih]

theorem lookup_mapSet_ne {β : Type} {k k' : String} {v : β} {l : List (String × β)}
    (h : k' ≠ k) :
    (l.map fun p => if p.1 = k then (k, v) else p).lookup k' = l.lookup k' := by
  induction l with
  | nil => rfl
  | cons p t ih =>
    obtain ⟨a, b⟩ := p
    by_cases hk : a = k
    · subst hk
      simp [List.lookup_cons, show (k' == a) = false from beq_eq_false_iff_ne.mpr h, ih]
    · by_cases hk' : a = k'
      · subst hk'
        simp [List.lookup_cons, hk]
      · simp [List.lookup_cons, hk,
          show (k' == a) = false from beq_eq_false_iff_ne.mpr (Ne.symm hk'), ih]

theorem lookup_setKey_self {β : Type} (k : String) (v : β) (l : List (String × β)) :
    (setKey k v l).lookup k = some v := by
  unfold setKey
  split
  · next h =>
    rw [lookup_mapSet_self]
    have hs : (l.lookup k).isSome := by
      rw [List.lookup_isSome_iff]
      rcases List.any_eq_true.mp h with ⟨p, hp, he⟩
      simp only [decide_eq_true_eq] at he
      exact ⟨p, hp, by simp [he]⟩
    rcases Option.isSome_iff_exists.mp hs with ⟨w, hw⟩
    simp [hw]
  · next h =>
    rw [lookup_append_of_none (lookup_eq_none_of_any_eq_false (Bool.eq_false_iff.mpr h))]
    simp

theorem lookup_setKey_ne {β : Type} {k k' : String} {v : β} {l : List (String × β)}
    (h : k' ≠ k) : (setKey k v l).lookup k' = l.lookup k' := by
  unfold setKey
  split
  · exact lookup_mapSet_ne h
  · rw [List.lookup_append]
    cases hl : l.lookup k' with
    | some w => rfl
    | none =>
      simp [List.lookup_cons, show (k' == k) = false from beq_eq_false_iff_ne.mpr h]

theorem lookup_delKey_self {β : Type} (k : String) (l : List (String × β)) :
    (delKey k l).lookup k = none := by
  induction l with
  | nil => rfl
  | cons p t ih =>
    obtain ⟨a, b⟩ := p
    by_cases hk : a = k
    · simpa [delKey, hk] using ih
    · simpa [delKey, List.lookup_cons, hk,
        show (k == a) = false from beq_eq_false_iff_ne.mpr (Ne.symm hk)] using ih

theorem lookup_delKey_ne {β : Type} {k k' : String} {l : List (String × β)}
    (h : k' ≠ k) : (delKey k l).lookup k' = l.lookup k' := by
  induction l with
  | nil => rfl
  | cons p t ih =>
    obtain ⟨a, b⟩ := p
    by_cases hk : a = k
    · subst hk
      simpa [delKey, List.lookup_cons,
        show (k' == a) = false from beq_eq_false_iff_ne.mpr h] using ih
    · by_cases hk' : a = k'
      · subst hk'
        simp [delKey, List.lookup_cons, hk]
      · simpa [delKey, List.lookup_cons, hk,
          show (k' == a) = false from beq_eq_false_iff_ne.mpr (Ne.symm hk')] using ih

theorem mem_of_lookup_eq_some {β : Type} {k : String} {v : β} {l : List (String × β)}
    (h : l.lookup k = some v) : (k, v) ∈ l := by
  rcases List.lookup_eq_some_iff.mp h with ⟨l₁, l₂, rfl, -⟩
  simp

theorem lookup_eq_none_of_not_mem_keys {β : Type} {k : String} {l : List (String × β)}
    (h : k ∉ keys l) : l.lookup k = none := by
  rw [List.lookup_eq_none_iff]
  intro p hp
  simp only [bne_iff_ne, ne_eq]
  intro e
  exact h (e ▸ List.mem_map_of_mem _ hp)

/-! ## Error-store update lemmas -/

theorem ruleErr_setRuleError_self (f r m : String) (errs : ErrorStore) :
    ruleErr (setRuleError f r m errs) f r = some m := by
  cases h : errs.lookup f <;>
    simp [ruleErr, setRuleError, h, lookup_setKey_self]

theorem ruleErr_setRuleError_ne_rule {f r r' m : String} {errs : ErrorStore}
    (hr : r' ≠ r) : ruleErr (setRuleError f r m errs) f r' = ruleErr errs f r' := by
  cases h : errs.lookup f <;>
    simp [ruleErr, setRuleError, h, lookup_setKey_self, lookup_setKey_ne hr]

theorem ruleErr_setRuleError_ne_field {f f' r r' m : String} {errs : ErrorStore}
    (hf : f' ≠ f) : ruleErr (setRuleError f r m errs) f' r' = ruleErr errs f' r' := by
  cases h : errs.lookup f <;>
    simp [ruleErr, setRuleError, h, lookup_setKey_ne hf]

theorem ruleErr_delRuleError_self (f r : String) (errs : ErrorStore) :
    ruleErr (delRuleError f r errs) f r = none := by
  cases h : errs.lookup f <;>
    simp [ruleErr, delRuleError, h, lookup_setKey_self, lookup_delKey_self]

theorem ruleErr_delRuleError_ne_rule {f r r' : String} {errs : ErrorStore}
    (hr : r' ≠ r) : ruleErr (delRuleError f r errs) f r' = ruleErr errs f r' := by
  cases h : errs.lookup f <;>
    simp [ruleErr, delRuleError, h, lookup_setKey_self, lookup_delKey_ne hr]

theorem ruleErr_delRuleError_ne_field {f f' r r' : String} {errs : ErrorStore}
    (hf : f' ≠ f) : ruleErr (delRuleError f r errs) f' r' = ruleErr errs f' r' := by
  cases h : errs.lookup f <;>
    simp [ruleErr, delRuleError, h, lookup_setKey_ne hf]

/-! ## Key-set preservation -/

theorem keys_cons {β : Type} (p : String × β) (l : List (String × β)) :
    keys (p :: l) = p.1 :: keys l :=
  rfl

theorem keys_map_preserved {β : Type} (k : String) (v : β) (l : List (String × β)) :
    keys (l.map fun p => if p.1 = k then (k, v) else p) = keys l := by
  induction l with
  | nil => rfl
  | cons p t ih =>
    obtain ⟨a, b⟩ := p
    by_cases hk : a = k
    · subst hk
      simp [keys_cons, ih]
    · simp [keys_cons, hk, ih]

theorem keys_setKey_nodup {β : Type} {k : String} {v : β} {l : List (String × β)}
    (h : (keys l).Nodup) : (keys (setKey k v l)).Nodup := by
  unfold setKey
  split
  · rw [keys_map_preserved]
    exact h
  · next hany =>
    have hk : k ∉ keys l := by
      intro hmem
      rcases List.mem_map.mp hmem with ⟨p, hp, he⟩
      exact hany (List.any_eq_true.mpr ⟨p, hp, by simp [he]⟩)
    rw [show keys (l ++ [(k, v)]) = keys l ++ [k] by simp [keys]]
    refine List.Nodup.append h (List.nodup_singleton _) ?_
    intro a ha hb
    rw [List.mem_singleton.mp hb] at ha
    exact hk ha

theorem keys_delKey_nodup {β : Type} {k : String} {l : List (String × β)}
    (h : (keys l).Nodup) : (keys (delKey k l)).Nodup :=
  List.Nodup.sublist ((List.filter_sublist _).map _) h

theorem keys_setRuleError_nodup {f r m : String} {errs : ErrorStore}
    (h : (keys errs).Nodup) : (keys (setRuleError f r m errs)).Nodup := by
  unfold setRuleError
  cases errs.lookup f <;> exact keys_setKey_nodup h

theorem keys_delRuleError_nodup {f r : String} {errs : ErrorStore}
    (h : (keys errs).Nodup) : (keys (delRuleError f r errs)).Nodup := by
  unfold delRuleError
  cases errs.lookup f
  · exact h
  · exact keys_setKey_nodup h

theorem keys_runRules_nodup {registry : Registry} {ctx : Snapshot} {value fname : String}
    {ie ir : Bool} (vals : List RuleRef) (errs : ErrorStore)
    (h : (keys errs).Nodup) :
    (keys (runRules registry ctx value fname ie ir vals errs)).Nodup := by
  induction vals generalizing errs with
  | nil => exact h
  | cons v0 rest ih =>
    unfold runRules
    cases registry.lookup v0.name with
    | none => exact ih _ h
    | some rd =>
      dsimp only
      split
      · exact ih _ (keys_delRuleError_nodup h)
      · exact ih _ (keys_setRuleError_nodup h)

theorem keys_removeEmpty_nodup {errs : ErrorStore}
    (h : (keys errs).Nodup) : (keys (removeEmptyErrorFields errs)).Nodup :=
  List.Nodup.sublist ((List.filter_sublist _).map _) h

/-! ## The rule loop -/

theorem ruleErr_runRules_of_name_ne {registry : Registry} {ctx : Snapshot}
    {value fname : String} {ie ir : Bool} (vals : List RuleRef) (errs : ErrorStore)
    (r : String) (hr : ∀ v ∈ vals, v.name ≠ r) :
    ruleErr (runRules registry ctx value fname ie ir vals errs) fname r =
      ruleErr errs fname r := by
  induction vals generalizing errs with
  | nil => rfl
  | cons v0 rest ih =>
    have h0 : r ≠ v0.name := Ne.symm (hr v0 (by simp))
    have hrest : ∀ v ∈ rest, v.name ≠ r := fun v hv => hr v (List.mem_cons_of_mem _ hv)
    unfold runRules
    cases hreg : registry.lookup v0.name with
    | none => exact ih _ hrest
    | some rd =>
      dsimp only
      split
      · rw [ih _ hrest, ruleErr_delRuleError_ne_rule h0]
      · rw [ih _ hrest, ruleErr_setRuleError_ne_rule h0]

theorem ruleErr_runRules_ne_field {registry : Registry} {ctx : Snapshot}
    {value fname : String} {ie ir : Bool} (vals : List RuleRef) (errs : ErrorStore)
    {f : String} (r : String) (hf : f ≠ fname) :
    ruleErr (runRules registry ctx value fname ie ir vals errs) f r =
      ruleErr errs f r := by
  induction vals generalizing errs with
  | nil => rfl
  | cons v0 rest ih =>
    unfold runRules
    cases hreg : registry.lookup v0.name with
    | none => exact ih _
    | some rd =>
      dsimp only
      split
      · rw [ih _, ruleErr_delRuleError_ne_field hf]
      · rw [ih _, ruleErr_setRuleError_ne_field hf]

theorem ruleErr_runRules_mem {registry : Registry} {ctx : Snapshot}
    {value fname : String} {ie ir : Bool} {vals : List RuleRef} {errs : ErrorStore}
    {val : RuleRef} {rd : RuleDef}
    (hnd : (vals.map (·.name)).Nodup) (hmem : val ∈ vals)
    (hrd : registry.lookup val.name = some rd) :
    ruleErr (runRules registry ctx value fname ie ir vals errs) fname val.name =
      if rd.predicate ctx value val.parameters || (ie && !ir) then none
      else some (getErrorMessage rd.message val.parameters) := by
  induction vals generalizing errs with
  | nil => simp at hmem
  | cons v0 rest ih =>
    rcases List.mem_cons.mp hmem with rfl | hmem'
    · have hnd' := hnd
      rw [List.map_cons, List.nodup_cons] at hnd'
      have hrest : ∀ v ∈ rest, v.name ≠ val.name := by
        intro v hv he
        exact hnd'.1 (he ▸ List.mem_map_of_mem _ hv)
      unfold runRules
      rw [hrd]
      dsimp only
      rw [ruleErr_runRules_of_name_ne _ _ _ hrest]
      split
      · rw [ruleErr_delRuleError_self]
      · rw [ruleErr_setRuleError_self]
    · unfold runRules
      cases hreg : registry.lookup v0.name with
      | none => exact ih (List.Nodup.of_cons (by simpa using hnd)) hmem'
      | some rd0 =>
        dsimp only
        split
        · exact ih (List.Nodup.of_cons (by simpa using hnd)) hmem'
        · exact ih (List.Nodup.of_cons (by simpa using hnd)) hmem'

/-! ## Pruning lemmas -/

theorem lookup_removeEmpty {errs : ErrorStore} (f : String) (hnd : (keys errs).Nodup) :
    (removeEmptyErrorFields errs).lookup f =
      (errs.lookup f).bind fun fe => if fe.isEmpty then none else some fe := by
  induction errs with
  | nil => rfl
  | cons p t ih =>
    obtain ⟨a, fe⟩ := p
    rw [keys_cons, List.nodup_cons] at hnd
    have ht := ih hnd.2
    show (List.filter _ ((a, fe) :: t)).lookup f = _
    rw [List.filter_cons]
    by_cases he : fe.isEmpty
    · rw [if_neg (by simp [List.isEmpty_iff.mp he])]
      by_cases hf : a = f
      · subst hf
        rw [List.lookup_cons_self]
        have hleft : (List.filter (fun p => !p.2.isEmpty) t).lookup a = none := by
          rw [show (List.filter (fun p => !p.2.isEmpty) t) = removeEmptyErrorFields t from rfl,
            ht, lookup_eq_none_of_not_mem_keys hnd.1]
          rfl
        rw [hleft]
        simp only [Option.some_bind]
        rw [if_pos he]
      · simp only [List.lookup_cons,
          show (f == a) = false from beq_eq_false_iff_ne.mpr (Ne.symm hf)]
        exact ht
    · rw [if_pos (by simpa using he)]
      by_cases hf : a = f
      · subst hf
        rw [List.lookup_cons_self, List.lookup_cons_self]
        simp only [Option.some_bind]
        rw [if_neg he]
      · simp only [List.lookup_cons,
          show (f == a) = false from beq_eq_false_iff_ne.mpr (Ne.symm hf)]
        exact ht

theorem ruleErr_removeEmpty {errs : ErrorStore} (f r : String) (hnd : (keys errs).Nodup) :
    ruleErr (removeEmptyErrorFields errs) f r = ruleErr errs f r := by
  unfold ruleErr
  rw [lookup_removeEmpty f hnd]
  cases h : errs.lookup f with
  | none => rfl
  | some fe =>
    by_cases he : fe.isEmpty
    · rw [List.isEmpty_iff.mp he]
      simp
    · rw [Option.some_bind, Option.some_bind, if_neg he]
      rfl

theorem snd_ne_nil_of_mem_removeEmpty {errs : ErrorStore} {p : String × List (String × String)}
    (hp : p ∈ removeEmptyErrorFields errs) : p.2 ≠ [] := by
  have := List.of_mem_filter hp
  simpa [List.isEmpty_iff] using this

/-! ## Surfacing lemmas -/

theorem lookup_updateElement_self (n : String) (g : ErrorElement → ErrorElement)
    (els : List (String × ErrorElement)) :
    (updateElement n g els).lookup n = (els.lookup n).map g := by
  induction els with
  | nil => rfl
  | cons p t ih =>
    obtain ⟨a, b⟩ := p
    by_cases hk : a = n
    · subst hk
      simp [updateElement, List.lookup_cons]
    · simp [updateElement, List.lookup_cons, hk,
        show (n == a) = false from beq_eq_false_iff_ne.mpr (Ne.symm hk)] at ih ⊢
      exact ih

theorem lookup_updateElement_ne {n n' : String} (g : ErrorElement → ErrorElement)
    (els : List (String × ErrorElement)) (h : n' ≠ n) :
    (updateElement n g els).lookup n' = els.lookup n' := by
  induction els with
  | nil => rfl
  | cons p t ih =>
    obtain ⟨a, b⟩ := p
    by_cases hk : a = n
    · subst hk
      simp [updateElement, List.lookup_cons,
        show (n' == a) = false from beq_eq_false_iff_ne.mpr h] at ih ⊢
      exact ih
    · by_cases hk' : a = n'
      · subst hk'
        simp [updateElement, List.lookup_cons, hk]
      · simp [updateElement, List.lookup_cons, hk,
          show (n' == a) = false from beq_eq_false_iff_ne.mpr (Ne.symm hk')] at ih ⊢
        exact ih

theorem lookup_toggle_of_name_ne {errs : ErrorStore} (flds : List ParsedFieldType)
    (els : List (String × ErrorElement)) {n : String} (hn : ∀ f ∈ flds, f.name ≠ n) :
    (toggleErrorMessages errs flds els).lookup n = els.lookup n := by
  induction flds generalizing els with
  | nil => rfl
  | cons g rest ih =>
    unfold toggleErrorMessages
    rw [ih _ (fun f hf => hn f (List.mem_cons_of_mem _ hf)),
      lookup_updateElement_ne _ _ (Ne.symm (hn g (by simp)))]

theorem lookup_toggle_mem {errs : ErrorStore} {flds : List ParsedFieldType}
    {els : List (String × ErrorElement)} {f : ParsedFieldType}
    (hnd : (flds.map (·.name)).Nodup) (hmem : f ∈ flds) :
    (toggleErrorMessages errs flds els).lookup f.name =
      (els.lookup f.name).map
        (toggleLoop (errs.lookup f.name) (f.validators.map (·.name))) := by
  induction flds generalizing els with
  | nil => simp at hmem
  | cons g rest ih =>
    rw [List.map_cons, List.nodup_cons] at hnd
    rcases List.mem_cons.mp hmem with rfl | hmem'
    · have hrest : ∀ x ∈ rest, x.name ≠ f.name := by
        intro x hx he
        exact hnd.1 (he ▸ List.mem_map_of_mem _ hx)
      unfold toggleErrorMessages
      rw [lookup_toggle_of_name_ne _ _ hrest, lookup_updateElement_self]
    · have hgf : g.name ≠ f.name := by
        intro he
        exact hnd.1 (he ▸ List.mem_map_of_mem _ hmem')
      unfold toggleErrorMessages
      rw [ih hnd.2 hmem', lookup_updateElement_ne _ _ (Ne.symm hgf)]

theorem toggleLoop_first {ferrs : Option (List (String × String))} {order : List String}
    (rn m : String)
    (hfind : order.findSome? (fun r => (ferrs.bind (·.lookup r)).map fun m' => (r, m')) =
      some (rn, m))
    (hne : ∀ r m', ferrs.bind (·.lookup r) = some m' → m' ≠ "") (el : ErrorElement) :
    toggleLoop ferrs order el = ⟨true, m⟩ := by
  induction order generalizing el with
  | nil => simp at hfind
  | cons r0 rest ih =>
    rw [List.findSome?_cons] at hfind
    cases e : ferrs.bind (·.lookup r0) with
    | some m0 =>
      rw [e] at hfind
      simp only [Option.map_some'] at hfind
      obtain ⟨rfl, rfl⟩ : r0 = rn ∧ m0 = m := by
        constructor <;> cases hfind <;> rfl
      unfold toggleLoop
      rw [e]
      simp [show (m0 == "") = false from beq_eq_false_iff_ne.mpr (hne r0 m0 e)]
    | none =>
      rw [e] at hfind
      simp only [Option.map_none'] at hfind
      unfold toggleLoop
      rw [e]
      exact ih hfind _

theorem ne_empty_of_storedMessagesNonempty {errs : ErrorStore} {n r m : String}
    (h : storedMessagesNonempty errs n = true) (hr : ruleErr errs n r = some m) :
    m ≠ "" := by
  unfold storedMessagesNonempty at h
  unfold ruleErr at hr
  cases he : errs.lookup n with
  | none => rw [he] at hr; simp at hr
  | some fe =>
    rw [he] at hr h
    simp only [Option.getD_some] at h
    simp only [Option.some_bind] at hr
    have hmem := mem_of_lookup_eq_some hr
    have := List.all_eq_true.mp h _ hmem
    simpa using this

/-! ## Reset lemmas -/

theorem lookup_clearVisible (flds : List ParsedFieldType)
    (els : List (String × ErrorElement)) (n : String) :
    (clearVisibleMarks flds els).lookup n =
      if flds.any (fun f => decide (f.name = n)) then
        (els.lookup n).map fun el => { el with visible := false }
      else els.lookup n := by
  induction flds generalizing els with
  | nil => simp [clearVisibleMarks]
  | cons g rest ih =>
    unfold clearVisibleMarks
    rw [ih]
    by_cases hg : g.name = n
    · subst hg
      by_cases hr : (rest.any fun f => decide (f.name = g.name)) = true
      · rw [if_pos hr, lookup_updateElement_self, if_pos (by simp)]
        cases els.lookup g.name with
        | none => rfl
        | some el =>
          obtain ⟨vis, txt⟩ := el
          rfl
      · rw [if_neg hr, lookup_updateElement_self, if_pos (by simp)]
    · rw [lookup_updateElement_ne _ _ (Ne.symm hg)]
      have hcond : ((g :: rest).any fun f => decide (f.name = n)) =
          (rest.any fun f => decide (f.name = n)) := by
        simp [List.any_cons, hg]
      rw [hcond]

/-! ## Evaluator characterization -/

theorem ruleErr_eventHandler_mem {registry : Registry} {fields : List ParsedFieldType}
    {value : String} {field : ParsedFieldType} {s : ValState} {val : RuleRef} {rd : RuleDef}
    (hnd3 : (field.validators.map (·.name)).Nodup)
    (hndK : (keys s.errors).Nodup)
    (hmem : val ∈ field.validators)
    (hrd : registry.lookup val.name = some rd) :
    ruleErr (eventHandler registry fields value field s).errors field.name val.name =
      if rd.predicate s.valueFields value val.parameters
          || (decide (trimmedLength value = 0) &&
               !(field.validators.any fun v => v.name == "required")) then none
      else some (getErrorMessage rd.message val.parameters) := by
  show ruleErr (removeEmptyErrorFields (runRules registry s.valueFields value field.name
    (decide (trimmedLength value = 0)) (field.validators.any fun v => v.name == "required")
    field.validators s.errors)) field.name val.name = _
  rw [ruleErr_removeEmpty _ _ (keys_runRules_nodup _ _ hndK),
    ruleErr_runRules_mem hnd3 hmem hrd]

/-! ## Parser lemmas -/

theorem parseSegment_unknown {registry : Registry} {elem : String}
    (h : (registry.lookup (segName elem)).isNone) :
    parseSegment registry elem = .error (.unknownRule (segName elem)) := by
  unfold parseSegment getNumberOfValidatorArguments
  dsimp only
  rw [Option.isNone_iff_eq_none.mp h]
  rfl

theorem parseSegments_error_of_unknown_mem (registry : Registry) (segs : List String)
    (h : ∃ elem ∈ segs, (registry.lookup (segName elem)).isNone) :
    ∃ e, parseSegments registry segs = .error e := by
  induction segs with
  | nil => simp at h
  | cons s0 rest ih =>
    rcases h with ⟨elem, hmem, hunk⟩
    rcases List.mem_cons.mp hmem with rfl | hmem'
    · refine ⟨.unknownRule (segName elem), ?_⟩
      unfold parseSegments
      rw [parseSegment_unknown hunk]
    · cases hps : parseSegment registry s0 with
      | error e =>
        refine ⟨e, ?_⟩
        unfold parseSegments
        rw [hps]
      | ok r0 =>
        rcases ih ⟨elem, hmem', hunk⟩ with ⟨e, he⟩
        refine ⟨e, ?_⟩
        unfold parseSegments
        rw [hps, he]

theorem parseSegments_append_first_unknown (registry : Registry) (segs1 : List String)
    (elem : String) (segs2 : List String) (rs : List RuleRef)
    (hok : parseSegments registry segs1 = .ok rs)
    (hunk : (registry.lookup (segName elem)).isNone) :
    parseSegments registry (segs1 ++ elem :: segs2) =
      .error (.unknownRule (segName elem)) := by
  induction segs1 generalizing rs with
  | nil =>
    rw [List.nil_append]
    unfold parseSegments
    rw [parseSegment_unknown hunk]
  | cons s0 rest ih =>
    cases hps : parseSegment registry s0 with
    | error e => simp [parseSegments, hps] at hok
    | ok r0 =>
      cases hrest : parseSegments registry rest with
      | error e => simp [parseSegments, hps, hrest] at hok
      | ok rs' =>
        rw [List.cons_append]
        have hr := ih rs' hrest
        simp [parseSegments, hps, hr]

/-! ## Claim theorems -/

/-- C1: during evaluation each rule in the field's pipeline is treated as
passing exactly when its predicate returns true or the trimmed value is
empty and `required` is absent from the field's validators; a field with
only `email` and an empty value ends with no error-store entry, while
`required|email` on an empty value stores entries for both rules and
surfaces the `required` message. -/
theorem c1_empty_value_exemption :
    (∀ (registry : Registry) (fields : List ParsedFieldType) (value : String)
       (field : ParsedFieldType) (s : ValState) (val : RuleRef) (rd : RuleDef),
       (field.validators.map (·.name)).Nodup →
       (keys s.errors).Nodup →
       val ∈ field.validators →
       registry.lookup val.name = some rd →
       ruleErr (eventHandler registry fields value field s).errors field.name val.name =
         if rd.predicate s.valueFields value val.parameters
             || (decide (trimmedLength value = 0) &&
                  !(field.validators.any fun v => v.name == "required")) then none
         else some (getErrorMessage rd.message val.parameters)) ∧
    (eventHandler builtinValidators [emailOnlyField] "" emailOnlyField
      (initState [emailOnlyField])).errors = [] ∧
    (eventHandler builtinValidators [reqEmailField] "" reqEmailField
      (initState [reqEmailField])).errors =
      [("rf", [("required", "Поле обязательно для заполнения"),
               ("email", "Не корректный E-mail адрес")])] ∧
    (eventHandler builtinValidators [reqEmailField] "" reqEmailField
      (initState [reqEmailField])).elements.lookup "rf" =
      some ⟨true, "Поле обязательно для заполнения"⟩ := by
  refine ⟨?_, by decide, by decide, by decide⟩
  intro registry fields value field s val rd hnd3 hndK hmem hrd
  exact ruleErr_eventHandler_mem hnd3 hndK hmem hrd

/-- Witness for C1 at a concrete instance: the `minLen:4` rule of the
`name` field, evaluated at `"ab"` from the initial state. -/
theorem c1_empty_value_exemption_witness :
    ruleErr (eventHandler builtinValidators [nameField] "ab" nameField
        (initState [nameField])).errors "name" "minLen" =
      if minLenRule.predicate (initState [nameField]).valueFields "ab" ["4"]
          || (decide (trimmedLength "ab" = 0) &&
               !(nameField.validators.any fun v => v.name == "required")) then none
      else some (getErrorMessage minLenRule.message ["4"]) :=
  c1_empty_value_exemption.1 builtinValidators [nameField] "ab" nameField
    (initState [nameField]) ⟨"minLen", ["4"]⟩ minLenRule (by decide) (by decide)
    (by decide) rfl

/-- C2: for every field with an active error, the surfaced message is the
one of the first rule in declared order that has a store entry; later
entries stay in the store unsurfaced.  No value can fail `minLen:4` and
`maxLen:5` at once (both compare the same trimmed length), so the spec's
two-field example is demonstrated with `required|minLen:4` against
`minLen:4|required` at the empty value instead. -/
theorem c2_first_error_surfaced :
    (∀ (registry : Registry) (fields : List ParsedFieldType) (value : String)
       (field g : ParsedFieldType) (s : ValState) (el : ErrorElement) (rn m : String),
       (fields.map (·.name)).Nodup →
       g ∈ fields →
       s.elements.lookup g.name = some el →
       firstStoreError (eventHandler registry fields value field s).errors g =
         some (rn, m) →
       storedMessagesNonempty (eventHandler registry fields value field s).errors
         g.name = true →
       (eventHandler registry fields value field s).elements.lookup g.name =
         some ⟨true, m⟩) ∧
    (∀ (ctx : Snapshot) (v : String),
       minLenRule.predicate ctx v ["4"] = false → maxLenRule.predicate ctx v ["5"] = true) ∧
    orderDemoState.elements.lookup "rm" = some ⟨true, "Поле обязательно для заполнения"⟩ ∧
    orderDemoState.elements.lookup "mr" = some ⟨true, "Минимум 4 символов"⟩ ∧
    ruleErr orderDemoState.errors "rm" "minLen" = some "Минимум 4 символов" ∧
    ruleErr orderDemoState.errors "mr" "required" = some "Поле обязательно для заполнения" := by
  refine ⟨?_, ?_, by decide, by decide, by decide, by decide⟩
  · intro registry fields value field g s el rn m hndF hgmem hel hfind hmsgs
    have he : (eventHandler registry fields value field s).elements =
        toggleErrorMessages (eventHandler registry fields value field s).errors fields
          s.elements := rfl
    rw [he, lookup_toggle_mem hndF hgmem, hel]
    refine congrArg some (toggleLoop_first rn m ?_ ?_ el)
    · simp only [firstStoreError, ruleErr] at hfind
      exact hfind
    · intro r m' hr'
      exact ne_empty_of_storedMessagesNonempty hmsgs hr'
  · intro ctx v h
    have h4 : jsNumberOpt (["4"] : List String)[0]? = some 4 := rfl
    have h5 : jsNumberOpt (["5"] : List String)[0]? = some 5 := rfl
    simp only [minLenRule, maxLenRule, h4, h5] at h ⊢
    simp only [decide_eq_false_iff_not, not_le] at h
    simp only [decide_eq_true_eq]
    omega

/-- Witness for C2 at a concrete instance: the `rm` field's first
stored error (its `required` message) is surfaced after evaluating it at
the empty value. -/
theorem c2_first_error_surfaced_witness :
    (eventHandler builtinValidators [fieldRM] "" fieldRM
        (initState [fieldRM])).elements.lookup "rm" =
      some ⟨true, "Поле обязательно для заполнения"⟩ :=
  c2_first_error_surfaced.1 builtinValidators [fieldRM] "" fieldRM fieldRM
    (initState [fieldRM]) ⟨false, ""⟩ "required" "Поле обязательно для заполнения"
    (by decide) (by decide) (by decide) (by decide) (by decide)

/-- C3: submit evaluates every declared field at its live value in
declaration order; the default action is prevented exactly when the
resulting store is non-empty, and the submit callback payload is the
full value snapshot exactly when it is empty.  The spec's submission
scenario is checked at both the failing and the passing inputs. -/
theorem c3_submit_protocol :
    (∀ (registry : Registry) (fields : List ParsedFieldType) (live : String → String)
       (s : ValState),
       (handleSubmit registry fields live s).state =
         fields.foldl (fun st f => eventHandler registry fields (live f.name) f st) s ∧
       ((handleSubmit registry fields live s).prevented = true ↔
         (handleSubmit registry fields live s).state.errors ≠ []) ∧
       (handleSubmit registry fields live s).submitPayload =
         (if (handleSubmit registry fields live s).state.errors.isEmpty then
           some (handleSubmit registry fields live s).state.valueFields
         else none)) ∧
    submitInvalid.prevented = true ∧
    submitInvalid.submitPayload = none ∧
    submitInvalid.state.errors =
      [("name", [("minLen", "Минимум 4 символов")]), ("age", [("min", "Минимум 10")])] ∧
    submitValid.prevented = false ∧
    submitValid.state.errors = [] ∧
    submitValid.submitPayload = some [("name", "abcd"), ("age", "15")] := by
  refine ⟨?_, by decide, by decide, by decide, by decide, by decide, by decide⟩
  intro registry fields live s
  refine ⟨rfl, ?_, ?_⟩
  · show (isError (handleSubmit registry fields live s).state = true) ↔ _
    unfold isError
    simp
  · show (if isError (handleSubmit registry fields live s).state = false then
        some (handleSubmit registry fields live s).state.valueFields else none) = _
    unfold isError
    cases h : (handleSubmit registry fields live s).state.errors.isEmpty <;> simp [h]

/-- C4: a value-change event on a field with a `syncCall` evaluates the
field and then synchronously re-evaluates the dependent field at its
last-known snapshot entry (a defined sentinel when it has none); in the
password/confirm scenario, changing `password` to `"abcdef"` without
touching `confirm` re-runs `confirm`'s rules and records the mismatch. -/
theorem c4_sync_reevaluation :
    (∀ (registry : Registry) (fields : List ParsedFieldType) (value : String)
       (field : ParsedFieldType) (target : String) (s : ValState),
       field.syncCall = some target →
       inputEvent registry fields value field s =
         syncCall registry fields target (eventHandler registry fields value field s)) ∧
    (∀ (registry : Registry) (fields : List ParsedFieldType) (target : String)
       (ft : ParsedFieldType) (s : ValState),
       fields.find? (fun f => f.name == target) = some ft →
       syncCall registry fields target s =
         eventHandler registry fields ((s.valueFields.lookup target).getD "d1111") ft s) ∧
    pwStep2.errors = [] ∧
    ruleErr pwStep3.errors "confirm" "confirm" = some "Пароли дожны совпадать" ∧
    pwStep3.elements.lookup "confirm" = some ⟨true, "Пароли дожны совпадать"⟩ ∧
    pwStep3.valueFields.lookup "confirm" = some "abcde" := by
  refine ⟨?_, ?_, by decide, by decide, by decide, by decide⟩
  · intro registry fields value field target s h
    unfold inputEvent
    rw [h]
  · intro registry fields target ft s h
    unfold syncCall
    rw [h]

/-- Witness for C4 at a concrete instance: the event on `password`
dispatches to `syncCall` on `confirm`, which evaluates `confirm` at its
snapshot entry (here absent, so the sentinel). -/
theorem c4_sync_reevaluation_witness :
    syncCall builtinValidators syncFields "confirm" (initState syncFields) =
      eventHandler builtinValidators syncFields
        (((initState syncFields).valueFields.lookup "confirm").getD "d1111") confirmField
        (initState syncFields) :=
  c4_sync_reevaluation.2.1 builtinValidators syncFields "confirm" confirmField
    (initState syncFields) (by decide)

/-- C5 counterexample: after setting `b` (rule `required|confirm:a`) to
`"x"` and then `a` to `"x"`, `b` still has a store entry although every
one of its rules now passes at its recorded value — the store key is not
equivalent to "some rule of the field is currently failing" for fields
other than the one just evaluated. -/
theorem c5_staleness_counterexample :
    staleStep2.errors = [("b", [("confirm", "Пароли дожны совпадать")])] ∧
    staleStep2.valueFields.lookup "b" = some "x" ∧
    staleStep2.valueFields.lookup "a" = some "x" ∧
    ((builtinValidators.lookup "required").map fun rd =>
      rd.predicate staleStep2.valueFields "x" []) = some true ∧
    ((builtinValidators.lookup "confirm").map fun rd =>
      rd.predicate staleStep2.valueFields "x" ["a"]) = some true := by
  exact ⟨by decide, by decide, by decide, by decide, by decide⟩

/-- C5 (amended): after evaluating a field, that field's key is in the
store iff one of its rules failed in this evaluation; no store entry
maps to an empty inner mapping; `isError` is true iff the store is
non-empty.  Entries of other fields reflect their own last evaluation
and may be stale. -/
theorem c5_store_iff_failing :
    (∀ (registry : Registry) (fields : List ParsedFieldType) (value : String)
       (field : ParsedFieldType) (s : ValState),
       (field.validators.map (·.name)).Nodup →
       (keys s.errors).Nodup →
       (∀ fe, s.errors.lookup field.name = some fe →
         ∀ p ∈ fe, ∃ v ∈ field.validators, v.name = p.1) →
       (∀ v ∈ field.validators, (registry.lookup v.name).isSome) →
       (((eventHandler registry fields value field s).errors.lookup field.name).isSome ↔
         ∃ val ∈ field.validators, ∃ rd, registry.lookup val.name = some rd ∧
           (rd.predicate s.valueFields value val.parameters
             || (decide (trimmedLength value = 0) &&
                  !(field.validators.any fun v => v.name == "required"))) = false)) ∧
    (∀ (registry : Registry) (fields : List ParsedFieldType) (value : String)
       (field : ParsedFieldType) (s : ValState) (p : String × List (String × String)),
       p ∈ (eventHandler registry fields value field s).errors → p.2 ≠ []) ∧
    (∀ s : ValState, isError s = true ↔ s.errors ≠ []) := by
  refine ⟨?_, ?_, ?_⟩
  · intro registry fields value field s hnd3 hndK hsub hreg
    show ((removeEmptyErrorFields (runRules registry s.valueFields value field.name
      (decide (trimmedLength value = 0)) (field.validators.any fun v => v.name == "required")
      field.validators s.errors)).lookup field.name).isSome ↔ _
    set ie := decide (trimmedLength value = 0) with hie
    set ir := field.validators.any (fun v => v.name == "required") with hir
    set errs1 := runRules registry s.valueFields value field.name ie ir
      field.validators s.errors with hE
    have hndK1 : (keys errs1).Nodup := keys_runRules_nodup _ _ hndK
    rw [lookup_removeEmpty _ hndK1]
    constructor
    · intro hsome
      rcases Option.isSome_iff_exists.mp hsome with ⟨fe2, hfe2⟩
      cases h1 : errs1.lookup field.name with
      | none => rw [h1] at hfe2; simp at hfe2
      | some fe =>
        rw [h1] at hfe2
        simp only [Option.some_bind] at hfe2
        by_cases hem : fe.isEmpty
        · rw [if_pos hem] at hfe2
          exact absurd hfe2 (by simp)
        · rcases fe with _ | ⟨⟨r0, m0⟩, ft⟩
          · exact absurd hem (by simp)
          · have hlk : ruleErr errs1 field.name r0 = some m0 := by
              unfold ruleErr
              rw [h1]
              simp
            by_cases hex : ∃ val ∈ field.validators, val.name = r0
            · rcases hex with ⟨val, hval, rfl⟩
              rcases Option.isSome_iff_exists.mp (hreg val hval) with ⟨rd, hrd⟩
              refine ⟨val, hval, rd, hrd, ?_⟩
              have hchar := @ruleErr_runRules_mem registry s.valueFields value field.name ie ir
                field.validators s.errors val rd hnd3 hval hrd
              rw [← hE] at hchar
              rw [hchar] at hlk
              by_cases hc : (rd.predicate s.valueFields value val.parameters
                  || (ie && !ir)) = true
              · rw [if_pos hc] at hlk
                exact absurd hlk (by simp)
              · exact Bool.eq_false_iff.mpr hc
            · have hpres : ruleErr errs1 field.name r0 = ruleErr s.errors field.name r0 := by
                rw [hE]
                exact ruleErr_runRules_of_name_ne _ _ _
                  (fun v hv e => hex ⟨v, hv, e⟩)
              rw [hpres] at hlk
              unfold ruleErr at hlk
              cases hsf : s.errors.lookup field.name with
              | none => rw [hsf] at hlk; simp at hlk
              | some fe0 =>
                rw [hsf] at hlk
                simp only [Option.some_bind] at hlk
                have hmem0 := mem_of_lookup_eq_some hlk
                rcases hsub fe0 hsf (r0, m0) hmem0 with ⟨v, hv, he⟩
                exact absurd ⟨v, hv, he⟩ hex
    · rintro ⟨val, hval, rd, hrd, hfail⟩
      have hchar := @ruleErr_runRules_mem registry s.valueFields value field.name ie ir
                field.validators s.errors val rd hnd3 hval hrd
      rw [← hE] at hchar
      rw [hfail] at hchar
      simp only [Bool.false_eq_true, if_false] at hchar
      unfold ruleErr at hchar
      cases h1 : errs1.lookup field.name with
      | none => rw [h1] at hchar; simp at hchar
      | some fe =>
        rw [h1] at hchar
        simp only [Option.some_bind] at hchar
        have hfe : ¬fe.isEmpty := by
          intro hem
          rw [List.isEmpty_iff.mp hem] at hchar
          simp at hchar
        have hfe' : fe ≠ [] := by simpa using hfe
        simp [hfe']
  · intro registry fields value field s p hp
    exact snd_ne_nil_of_mem_removeEmpty hp
  · intro s
    unfold isError
    simp

/-- Witness for the amended C5 at a concrete instance: the `name` field
evaluated at `"ab"` from the initial state. -/
theorem c5_store_iff_failing_witness :
    ((eventHandler builtinValidators [nameField] "ab" nameField
        (initState [nameField])).errors.lookup "name").isSome ↔
      ∃ val ∈ nameField.validators, ∃ rd, builtinValidators.lookup val.name = some rd ∧
        (rd.predicate (initState [nameField]).valueFields "ab" val.parameters
          || (decide (trimmedLength "ab" = 0) &&
               !(nameField.validators.any fun v => v.name == "required"))) = false :=
  c5_store_iff_failing.1 builtinValidators [nameField] "ab" nameField
    (initState [nameField]) (by decide) (by decide)
    (fun fe h => by simp [initState] at h) (by decide)

/-- C6: the raw value is written into the value snapshot only after the
rule loop, so a field whose `confirm` rule targets itself compares the
incoming value against the snapshot entry from before this evaluation;
the snapshot then holds the new value. -/
theorem c6_snapshot_recorded_after :
    ∀ (n v old : String) (fields : List ParsedFieldType) (s : ValState),
      trimmedLength v ≠ 0 →
      (keys s.errors).Nodup →
      s.valueFields.lookup n = some old →
      (eventHandler builtinValidators fields v (selfConfirmField n) s).valueFields.lookup n =
          some v ∧
      ruleErr (eventHandler builtinValidators fields v (selfConfirmField n) s).errors n
          "confirm" =
        (if v == old then none else some "Пароли дожны совпадать") := by
  intro n v old fields s hv hndK hold
  constructor
  · show (setKey n v s.valueFields).lookup n = some v
    exact lookup_setKey_self n v s.valueFields
  · have hchar := @ruleErr_eventHandler_mem builtinValidators fields v (selfConfirmField n) s
      ⟨"confirm", [n]⟩ confirmRule (by simp [selfConfirmField]) hndK
      (by simp [selfConfirmField]) rfl
    rw [show (selfConfirmField n).name = n from rfl] at hchar
    have hpred : confirmRule.predicate s.valueFields v [n] = (v == old) := by
      simp [confirmRule, hold]
    have hie : decide (trimmedLength v = 0) = false := by simp [hv]
    have hreq : ((selfConfirmField n).validators.any fun x => x.name == "required") =
        false := by
      simp [selfConfirmField]
    rw [hpred, hie, hreq] at hchar
    simp only [Bool.not_false, Bool.false_and, Bool.or_false] at hchar
    have hmsg : getErrorMessage confirmRule.message [n] = "Пароли дожны совпадать" :=
      rfl
    rw [hmsg] at hchar
    exact hchar

/-- Witness for C6 at a concrete instance: field `pw` with recorded
value `"old"` evaluated at `"new"`. -/
theorem c6_snapshot_recorded_after_witness :
    (eventHandler builtinValidators [selfConfirmField "pw"] "new" (selfConfirmField "pw")
        selfConfirmState).valueFields.lookup "pw" = some "new" ∧
    ruleErr (eventHandler builtinValidators [selfConfirmField "pw"] "new"
        (selfConfirmField "pw") selfConfirmState).errors "pw" "confirm" =
      (if "new" == "old" then none else some "Пароли дожны совпадать") :=
  c6_snapshot_recorded_after "pw" "new" "old" [selfConfirmField "pw"] selfConfirmState
    (by decide) (by decide) (by decide)

/-- C7 counterexample: the rule string `minLen|zzz` contains the segment
`zzz`, whose rule name is unknown, yet parsing fails with an
arity-mismatch error for the earlier `minLen` segment, not with an
unknown-rule error. -/
theorem c7_unknown_rule_counterexample :
    validatorsParser builtinValidators "minLen|zzz" =
      .error (.arityMismatch "minLen" 1 0) ∧
    (ParseError.arityMismatch "minLen" 1 0).isUnknownRule = false ∧
    "zzz" ∈ jsSplit '|' (jsTrim "minLen|zzz") ∧
    (builtinValidators.lookup (segName "zzz")).isNone = true := by
  exact ⟨by decide, rfl, by decide, by decide⟩

/-- C7 (amended): a rule string with a segment whose rule name is not
registered never parses successfully; the reported error is the first
failure in left-to-right segment order, which is the unknown-rule error
when every earlier segment parses; empty segments (as produced by a
leading or trailing `|`) are the literal empty rule name and fail
lookup. -/
theorem c7_unknown_rule_fails :
    (∀ (registry : Registry) (segs : List String),
       (∃ elem ∈ segs, (registry.lookup (segName elem)).isNone) →
       ∃ e, parseSegments registry segs = .error e) ∧
    (∀ (registry : Registry) (str : String),
       (∃ elem ∈ jsSplit '|' (jsTrim str), (registry.lookup (segName elem)).isNone) →
       ∃ e, validatorsParser registry str = .error e) ∧
    (∀ (registry : Registry) (segs1 : List String) (elem : String) (segs2 : List String)
       (rs : List RuleRef),
       parseSegments registry segs1 = .ok rs →
       (registry.lookup (segName elem)).isNone →
       parseSegments registry (segs1 ++ elem :: segs2) =
         .error (.unknownRule (segName elem))) ∧
    validatorsParser builtinValidators "|required" = .error (.unknownRule "") ∧
    validatorsParser builtinValidators "required|" = .error (.unknownRule "") ∧
    validatorsParser builtinValidators "" = .error (.unknownRule "") := by
  refine ⟨?_, ?_, ?_, by decide, by decide, by decide⟩
  · exact parseSegments_error_of_unknown_mem
  · intro registry str h
    exact parseSegments_error_of_unknown_mem registry _ h
  · intro registry segs1 elem segs2 rs hok hunk
    exact parseSegments_append_first_unknown registry segs1 elem segs2 rs hok hunk

/-- Witness for the amended C7 at a concrete instance: `zzz` after a
well-formed `required` segment is reported as the unknown rule. -/
theorem c7_unknown_rule_fails_witness :
    parseSegments builtinValidators (["required"] ++ "zzz" :: []) =
      .error (.unknownRule (segName "zzz")) :=
  c7_unknown_rule_fails.2.2.1 builtinValidators ["required"] "zzz" []
    [⟨"required", []⟩] (by decide) (by decide)

/-- C8 counterexample: under the spec's own reading (parameters are
everything after the first `:`, comma-split), the segment `minLen:4:5`
supplies exactly one parameter, `4:5`, matching `minLen`'s declared
arity — and parsing indeed succeeds, but with the silently truncated
parameter list `["4"]`: the text after the second `:` is dropped. -/
theorem c8_arity_counterexample :
    specSegmentParameters "minLen:4:5" = ["4:5"] ∧
    (specSegmentParameters "minLen:4:5").length = 1 ∧
    getNumberOfValidatorArguments builtinValidators "minLen" = some 1 ∧
    parseSegment builtinValidators "minLen:4:5" = .ok ⟨"minLen", ["4"]⟩ ∧
    specSegmentParameters "minLen:4:5" ≠ ["4"] := by
  exact ⟨by decide, by decide, by decide, by decide, by decide⟩

/-- C8 (amended): for a known rule, a segment with at most one `:` fails
with an arity-mismatch error exactly when the comma-split of its
parameter section differs in length from the declared arity, and
otherwise succeeds with exactly those parameters; in a segment with
further `:` sections only the part between the first and second `:` is
kept (the rest is silently dropped) and that part is what the arity is
checked against. -/
theorem c8_arity_check :
    (∀ (registry : Registry) (elem name rawParams : String) (rd : RuleDef),
       jsSplit ':' elem = [name, rawParams] →
       registry.lookup name = some rd →
       parseSegment registry elem =
         (if rd.arity ≠ (jsSplit ',' rawParams).length then
           .error (.arityMismatch name rd.arity (jsSplit ',' rawParams).length)
         else .ok ⟨name, jsSplit ',' rawParams⟩)) ∧
    (∀ (registry : Registry) (elem name : String) (rd : RuleDef),
       jsSplit ':' elem = [name] →
       registry.lookup name = some rd →
       parseSegment registry elem =
         (if rd.arity ≠ 0 then .error (.arityMismatch name rd.arity 0)
         else .ok ⟨name, []⟩)) ∧
    (∀ (registry : Registry) (elem name rawParams : String) (restParts : List String)
       (rd : RuleDef),
       jsSplit ':' elem = name :: rawParams :: restParts →
       registry.lookup name = some rd →
       parseSegment registry elem =
         (if rd.arity ≠ (jsSplit ',' rawParams).length then
           .error (.arityMismatch name rd.arity (jsSplit ',' rawParams).length)
         else .ok ⟨name, jsSplit ',' rawParams⟩)) := by
  refine ⟨?_, ?_, ?_⟩
  · intro registry elem name rawParams rd hsplit hrd
    unfold parseSegment segName getNumberOfValidatorArguments
    rw [hsplit]
    simp [validatorArgumentsParser, hrd]
  · intro registry elem name rd hsplit hrd
    unfold parseSegment segName getNumberOfValidatorArguments
    rw [hsplit]
    simp [validatorArgumentsParser, hrd]
  · intro registry elem name rawParams restParts rd hsplit hrd
    unfold parseSegment segName getNumberOfValidatorArguments
    rw [hsplit]
    simp [validatorArgumentsParser, hrd]

/-- Witness for the amended C8 at a concrete instance: the segment
`minLen:4` against the registered arity of `minLen`. -/
theorem c8_arity_check_witness :
    parseSegment builtinValidators "minLen:4" =
      (if minLenRule.arity ≠ (jsSplit ',' "4").length then
        .error (.arityMismatch "minLen" minLenRule.arity (jsSplit ',' "4").length)
      else .ok ⟨"minLen", jsSplit ',' "4"⟩) :=
  c8_arity_check.1 builtinValidators "minLen:4" "minLen" "4" minLenRule (by decide) rfl

/-- C9: `resetAllErrors` empties the error store, leaves the value
snapshot untouched, re-enables the submit button and clears the visible
marker of every declared field's message element (keeping its text),
from any prior state. -/
theorem c9_reset_all_errors :
    ∀ (fields : List ParsedFieldType) (s : ValState),
      (resetAllErrors fields s).errors = [] ∧
      (resetAllErrors fields s).valueFields = s.valueFields ∧
      (resetAllErrors fields s).submitDisabled = false ∧
      isError (resetAllErrors fields s) = false ∧
      ∀ f ∈ fields, (resetAllErrors fields s).elements.lookup f.name =
        (s.elements.lookup f.name).map fun el => { el with visible := false } := by
  intro fields s
  refine ⟨rfl, rfl, rfl, rfl, ?_⟩
  intro f hf
  show (clearVisibleMarks fields s.elements).lookup f.name = _
  rw [lookup_clearVisible,
    if_pos (List.any_eq_true.mpr ⟨f, hf, by simp⟩)]

/-- Witness for C9 at a concrete instance: resetting the state of the
surfacing demo clears the `rm` element's visible marker. -/
theorem c9_reset_all_errors_witness :
    (resetAllErrors [fieldRM, fieldMR] orderDemoState).elements.lookup "rm" =
      (orderDemoState.elements.lookup "rm").map fun el => { el with visible := false } :=
  (c9_reset_all_errors [fieldRM, fieldMR] orderDemoState).2.2.2.2 fieldRM (by decide)

/-- C10: a sync re-evaluation of a never-touched dependent field
substitutes the literal sentinel `"d1111"` (not the empty string and not
any live value); its trimmed length is 5, so `required` and `minLen:n`
for `n ≤ 5` pass on the sentinel while `minLen:6` fails, and
`confirm:other` passes exactly when the other field's recorded value is
the sentinel itself. -/
theorem c10_sync_sentinel :
    (∀ (registry : Registry) (fields : List ParsedFieldType) (vname : String)
       (ft : ParsedFieldType) (s : ValState),
       s.valueFields.lookup vname = none →
       fields.find? (fun f => f.name == vname) = some ft →
       syncCall registry fields vname s = eventHandler registry fields "d1111" ft s) ∧
    "d1111" ≠ "" ∧
    trimmedLength "d1111" = 5 ∧
    (∀ ctx : Snapshot, requiredRule.predicate ctx "d1111" [] = true) ∧
    (∀ (ctx : Snapshot) (n : Nat), n ≤ 5 →
       minLenRule.predicate ctx "d1111" [toString n] = true) ∧
    (∀ ctx : Snapshot, minLenRule.predicate ctx "d1111" ["6"] = false) ∧
    (∀ (ctx : Snapshot) (other : String),
       confirmRule.predicate ctx "d1111" [other] = true ↔
         ctx.lookup other = some "d1111") := by
  refine ⟨?_, by decide, by decide, fun ctx => rfl, ?_, fun ctx => rfl, ?_⟩
  · intro registry fields vname ft s hnone hfind
    simp [syncCall, hnone, hfind]
  · intro ctx n hn
    interval_cases n <;> rfl
  · intro ctx other
    constructor
    · intro h
      cases hl : ctx.lookup other with
      | none => simp [confirmRule, hl] at h
      | some w =>
        simp [confirmRule, hl] at h
        rw [← h]
    · intro h
      simp [confirmRule, h]

/-- Witness for C10 at a concrete instance: the sync re-check of the
untouched `confirm` field runs at the sentinel value. -/
theorem c10_sync_sentinel_witness :
    syncCall builtinValidators syncFields "confirm" (initState syncFields) =
      eventHandler builtinValidators syncFields "d1111" confirmField
        (initState syncFields) :=
  c10_sync_sentinel.1 builtinValidators syncFields "confirm" confirmField
    (initState syncFields) (by decide) (by decide)
